import Mathlib

/-!
Verification of the XML option-grouping core of the repository
(source file Streamlit_XML_AI_Agent.py).

The development is a shallow embedding of the Python code.  The input
document tree (after `ET.fromstring`) is modelled by `RootEl`, whose
`options` are the direct `<option>` children in document order, each with
its `name` and `value` attribute strings (the source reads them with
`opt.get("name", "")`, so a missing attribute is the empty string) and its
`<dependent>` children.  Python exceptions raised by the algorithm are
modelled by the `PyError` type and `Except`.  Python string primitives
used by the source (`str.split`, `str.strip`, `sorted`, `",".join`) are
embedded as structural recursions over character lists so that every
definition evaluates inside the kernel; they implement exactly the Python
semantics on the relevant inputs (splitting on a separator character,
trimming whitespace, stable ascending sort by code point, joining with a
separator).
-/

namespace XmlAgent

/-- Errors raised by the embedded Python code: `IndexError` (from the
`values[-1]` lookup on an empty list) and `KeyError` (from a dict access
with a missing key, carrying the key). -/
inductive PyError where
  | indexError
  | keyError (key : String)
deriving DecidableEq, Repr

deriving instance DecidableEq for Except

/-- One `<dependent>` child of an `<option>`: the `id` and `name`
attribute strings (the inputs relevant to the claims always carry both
attributes). -/
structure Dependent where
  id : String
  name : String
deriving DecidableEq, Repr

/-- One `<option>` child: `name` and `value` attribute strings (missing
attributes read as `""` by `opt.get("name", "")` in the source) and the
`<dependent>` children in document order. -/
structure OptionEl where
  name : String
  value : String
  dependents : List Dependent
deriving DecidableEq, Repr

/-- The parsed root element: its attribute mapping (`root.attrib`) and its
direct `<option>` children in document order (`root.findall("option")`). -/
structure RootEl where
  attrib : List (String × String)
  options : List OptionEl
deriving DecidableEq, Repr

/-- Python `text.split(sep)` on a character list: splitting an empty list
yields one empty group, and every separator occurrence starts a new
group. -/
def splitOnChar (c : Char) : List Char → List (List Char)
  | [] => [[]]
  | x :: rest =>
    match splitOnChar c rest with
    | [] => [[]]
    | g :: gs => if x = c then [] :: g :: gs else (x :: g) :: gs

/-- Drop leading whitespace characters. -/
def dropLeadingWs : List Char → List Char
  | [] => []
  | x :: rest => if x.isWhitespace then dropLeadingWs rest else x :: rest

/-- Python `str.strip()`: drop whitespace from both ends. -/
def pyStrip (s : String) : String :=
  ⟨(dropLeadingWs (dropLeadingWs s.data.reverse).reverse)⟩

/-- Python `text.split(",")` on a string. -/
def pySplitComma (s : String) : List String :=
  (splitOnChar ',' s.data).map (fun cs => (⟨cs⟩ : String))

/-- Lexicographic comparison of character lists by code point, the order
Python uses to compare strings. -/
def ltChars : List Char → List Char → Bool
  | [], [] => false
  | [], _ :: _ => true
  | _ :: _, [] => false
  | a :: as, b :: bs => if a < b then true else if b < a then false else ltChars as bs

/-- Python `a < b` on strings. -/
def pyStrLt (a b : String) : Bool := ltChars a.data b.data

/-- Insert a string into an already sorted list, keeping it sorted and
placing the new element after existing equal elements (stability, as in
Python `sorted`). -/
def insertSorted (s : String) : List String → List String
  | [] => [s]
  | t :: rest => if pyStrLt t s then t :: insertSorted s rest else s :: t :: rest

/-- Python `sorted(list_of_strings)`: stable ascending sort by code
point. -/
def sortStrs : List String → List String
  | [] => []
  | s :: rest => insertSorted s (sortStrs rest)

/-- Join character-list groups with a separator list (the body of Python
`sep.join`). -/
def joinWith (sep : List Char) : List (List Char) → List Char
  | [] => []
  | [g] => g
  | g :: gs => g ++ sep ++ joinWith sep gs

/-- Python `sep.join(parts)`. -/
def pyJoin (sep : String) (parts : List String) : String :=
  ⟨joinWith sep.data (parts.map String.data)⟩

/-- Source lines 58 to 62, `_split_field`: split a comma-separated
attribute, strip each token, drop empty tokens; `None`/empty text gives
the empty list. -/
def splitField (text : String) : List String :=
  if text = "" then []
  else ((pySplitComma text).map pyStrip).filter (fun t => t ≠ "")

/-- Source lines 103 to 108: the per-option record.  The source stores the
sorted dependents signature twice, as the list `dependents` and as the
tuple `deps_key` with identical contents; the embedding keeps one field
for the shared value. -/
structure Record where
  names : List String
  values : List String
  deps_key : List String
deriving DecidableEq, Repr

/-- Source line 99: the canonical dependent signature `f"{id}:{name}"`. -/
def depSig (d : Dependent) : String := d.id ++ ":" ++ d.name

/-- Source lines 94 to 108: read one `<option>` into a record; `names` and
`values` from `_split_field`, `deps_key` the sorted list of `id:name`
signatures. -/
def recordOf (o : OptionEl) : Record :=
  { names := splitField o.name
    values := splitField o.value
    deps_key := sortStrs (o.dependents.map depSig) }

/-- Step 1 of the source (lines 92 to 108): one record per `<option>`
child, preserving document order. -/
def recordsOf (root : RootEl) : List Record :=
  root.options.map recordOf

/-- One exploded atomic entry (source lines 121 to 126): a name, its
positional value, and the originating record dependents signature. -/
structure Entry where
  name : String
  value : String
  deps_key : List String
deriving DecidableEq, Repr

/-- Source line 119: `values[idx] if idx < len(values) else values[-1]`.
The negative index on an empty list raises `IndexError`. -/
def valueAt (values : List String) (idx : Nat) : Except PyError String :=
  match values.get? idx with
  | some v => .ok v
  | none =>
    match values.getLast? with
    | some v => .ok v
    | none => .error PyError.indexError

/-- Source lines 117 to 127: explode the names of one record, pairing each
name positionally with its value via `valueAt`; `idx` is the running
`enumerate` index.  The inner `name.strip()` of line 118 is the second
strip applied to an already stripped token. -/
def explodeNames (values : List String) (deps : List String) :
    List String → Nat → Except PyError (List Entry)
  | [], _ => .ok []
  | n :: rest, idx =>
    match valueAt values idx with
    | .error e => .error e
    | .ok v =>
      match explodeNames values deps rest (idx + 1) with
      | .error e => .error e
      | .ok tail => .ok ({ name := pyStrip n, value := v, deps_key := deps } :: tail)

/-- Explode one record into its atomic entries. -/
def explodeRecord (r : Record) : Except PyError (List Entry) :=
  explodeNames r.values r.deps_key r.names 0

/-- Step 2 of the source (lines 109 to 130): flatten every record into
atomic entries, preserving record order. -/
def explodeAll : List Record → Except PyError (List Entry)
  | [] => .ok []
  | r :: rest =>
    match explodeRecord r with
    | .error e => .error e
    | .ok head =>
      match explodeAll rest with
      | .error e => .error e
      | .ok tail => .ok (head ++ tail)

/-- Source line 134: a value is a forced singleton when more than one
exploded entry carries it (`len(rows) > 1` in `value_to_dep_map`). -/
def forcedSingleton (flat : List Entry) (v : String) : Bool :=
  decide (1 < (flat.filter (fun e => e.value = v)).length)

/-- The dictionary key of source lines 142 to 147: `("FORCE", value,
deps_key)` for forced-singleton values, `("NORMAL", deps_key)` otherwise. -/
inductive GroupKey where
  | force (value : String) (deps_key : List String)
  | normal (deps_key : List String)
deriving DecidableEq, Repr

/-- Source lines 140 to 147: the group key assigned to an entry. -/
def keyOf (flat : List Entry) (e : Entry) : GroupKey :=
  if forcedSingleton flat e.value then GroupKey.force e.value e.deps_key
  else GroupKey.normal e.deps_key

/-- The bucket record of source lines 150 to 155.  Note the field holding
the creation index is named `order`; no field named `first_appearance`
exists. -/
structure GroupData where
  names : List String
  values : List String
  dependents : List String
  order : Nat
deriving DecidableEq, Repr

/-- Source lines 149 to 159 for a single entry: if the key is present,
append the entry name and value to its bucket (dicts preserve insertion
position on update); otherwise append a fresh bucket at the end,
recording the creation index `ord`. -/
def insertEntry (key : GroupKey) (e : Entry) (ord : Nat) :
    List (GroupKey × GroupData) → List (GroupKey × GroupData)
  | [] => [(key, { names := [e.name], values := [e.value], dependents := e.deps_key, order := ord })]
  | (k, g) :: rest =>
    if k = key then
      (k, { g with names := g.names ++ [e.name], values := g.values ++ [e.value] }) :: rest
    else
      (k, g) :: insertEntry key e ord rest

/-- Add one entry to the groups dictionary; the `appearance_order` counter
of the source always equals the current number of buckets. -/
def addEntry (gs : List (GroupKey × GroupData)) (key : GroupKey) (e : Entry) :
    List (GroupKey × GroupData) :=
  insertEntry key e gs.length gs

/-- The loop of source lines 140 to 159, with the key function fixed in
advance (the `forced_singletons` set is fully computed before the loop
runs). -/
def buildGroupsAux (kf : Entry → GroupKey) :
    List Entry → List (GroupKey × GroupData) → List (GroupKey × GroupData)
  | [], gs => gs
  | e :: rest, gs => buildGroupsAux kf rest (addEntry gs (kf e) e)

/-- Step 4 of the source (lines 136 to 159): the groups dictionary, as an
association list in insertion order. -/
def buildGroups (flat : List Entry) : List (GroupKey × GroupData) :=
  buildGroupsAux (keyOf flat) flat []

/-- Source line 163: `sorted(groups.items(), key=lambda kv:
kv[1]["first_appearance"])`.  The buckets carry no key named
`first_appearance` (they carry `order`), so the sort key function raises
`KeyError` on its first call; Python `sorted` never calls the key
function on an empty list, so only the empty dictionary survives. -/
def sortByFirstAppearance (gs : List (GroupKey × GroupData)) :
    Except PyError (List (GroupKey × GroupData)) :=
  match gs with
  | [] => .ok []
  | _ :: _ => .error (PyError.keyError "first_appearance")

/-- Source lines 172 to 177: deduplicate preserving first occurrence,
with a `seen` accumulator. -/
def dedupSeen (seen : List String) : List String → List String
  | [] => []
  | x :: rest => if x ∈ seen then dedupSeen seen rest else x :: dedupSeen (x :: seen) rest

/-- Deduplicate a list preserving first occurrence. -/
def dedupFirstOcc (l : List String) : List String := dedupSeen [] l

/-- One emitted `<dependent>` element (source lines 187 to 193): fixed
`type`, `reset`, `retainonedit` attributes around the split signature. -/
structure OutDependent where
  type : String
  id : String
  name : String
  reset : String
  retainonedit : String
deriving DecidableEq, Repr

/-- One emitted `<option>` element: its `name` and `value` attributes and
its `<dependent>` children. -/
structure OutOption where
  name : String
  value : String
  dependents : List OutDependent
deriving DecidableEq, Repr

/-- The emitted root element: tag `dependents`, carrying the original
root attributes (source line 165) and the emitted options. -/
structure OutRoot where
  attrib : List (String × String)
  options : List OutOption
deriving DecidableEq, Repr

/-- Source line 186: `dep.split(":", 1)`.  Signatures produced by
`depSig` always contain a colon, so the single-group case (where the
source tuple unpacking would raise `ValueError`) is unreachable through
`generate_clean_xml_from_root`. -/
def splitDepSig (s : String) : String × String :=
  match splitOnChar ':' s.data with
  | [] => ("", "")
  | x :: rest => (⟨x⟩, ⟨joinWith [':'] rest⟩)

/-- Source lines 167 to 193: emit one `<option>` from a bucket —
first-occurrence deduplicated comma-joined names, raw comma-joined
values, and one `<dependent>` per signature with the fixed attributes. -/
def emitOption (kg : GroupKey × GroupData) : OutOption :=
  { name := pyJoin "," (dedupFirstOcc kg.2.names)
    value := pyJoin "," kg.2.values
    dependents := kg.2.dependents.map (fun dep =>
      let p := splitDepSig dep
      { type := "0", id := p.1, name := p.2, reset := "false", retainonedit := "false" }) }

/-- Source lines 82 to 195, `generate_clean_xml_from_root`: extract
records, explode them, build the groups dictionary, sort it by the
missing `first_appearance` key, and emit the new `dependents` root. -/
def generate_clean_xml_from_root (root : RootEl) : Except PyError OutRoot :=
  match explodeAll (recordsOf root) with
  | .error e => .error e
  | .ok flat =>
    match sortByFirstAppearance (buildGroups flat) with
    | .error e => .error e
    | .ok ordered => .ok { attrib := root.attrib, options := ordered.map emitOption }

/-- The outcome visible to the caller of the upload branch: the reported
error message, if any, and the cleaned document, if produced. -/
structure PipeResult where
  errorMsg : Option String
  cleaned : Option OutRoot
deriving DecidableEq, Repr

/-- Python `str(e)` for the exceptions the algorithm can raise. -/
def pyErrStr : PyError → String
  | .indexError => "list index out of range"
  | .keyError k => "'" ++ k ++ "'"

/-- Source lines 210 to 222: parse and clean inside one `try` block.  The
parse outcome of the external `ET.fromstring` call is passed in as an
`Except` value carrying the parser message on failure.  Any exception —
a parse failure or an error from the cleaning algorithm — reaches the
single `except` handler, which reports the message and leaves
`cleaned_xml` unset; only a fully successful run produces output. -/
def runPipeline (parsed : Except String RootEl) : PipeResult :=
  match parsed with
  | .error msg => { errorMsg := some ("XML parse / cleaning error: " ++ msg), cleaned := none }
  | .ok root =>
    match generate_clean_xml_from_root root with
    | .error e => { errorMsg := some ("XML parse / cleaning error: " ++ pyErrStr e), cleaned := none }
    | .ok out => { errorMsg := none, cleaned := some out }

/-- Reading the emitted document back as an input document: the emitted
root attributes become the root attributes, each emitted option becomes
an `<option>` with the same `name` and `value` attributes and its
`<dependent>` children with their `id` and `name` attributes. -/
def reparseOutput (out : OutRoot) : RootEl :=
  { attrib := out.attrib
    options := out.options.map (fun o =>
      { name := o.name
        value := o.value
        dependents := o.dependents.map (fun d => { id := d.id, name := d.name }) }) }

/-- Find the bucket stored under a key in the groups association list
(first match, as in a dictionary lookup). -/
def lookupKey (q : GroupKey) : List (GroupKey × GroupData) → Option GroupData
  | [] => none
  | (k, g) :: rest => if k = q then some g else lookupKey q rest

/-- The names of an optional bucket, empty when absent. -/
def optNames : Option GroupData → List String
  | some g => g.names
  | none => []

/-- The values of an optional bucket, empty when absent. -/
def optValues : Option GroupData → List String
  | some g => g.values
  | none => []

/-- The dependents signature a group key was built from. -/
def depsOfKey : GroupKey → List String
  | .force _ dk => dk
  | .normal dk => dk

/-- The keys of the groups association list, in stored order. -/
def keysOf (gs : List (GroupKey × GroupData)) : List GroupKey :=
  gs.map Prod.fst

/-- First-encounter order of a key sequence: the distinct keys in the
order each one is first seen during a left-to-right scan, given the keys
already seen.  This formalises the claim wording, independent of the
grouping code. -/
def firstEncounters (seen : List GroupKey) : List GroupKey → List GroupKey
  | [] => []
  | k :: rest =>
    if k ∈ seen then firstEncounters seen rest
    else k :: firstEncounters (seen ++ [k]) rest

/-- Input for claim C1: two options whose single entries share the value
string attached to two different dependency sets. -/
def inputDocC1 : RootEl := ⟨[], [⟨"A", "1", [⟨"1", "D1"⟩]⟩, ⟨"B", "1", []⟩]⟩

/-- Input for claim C2: the end-to-end scenario pinned by the spec. -/
def inputDocC2 : RootEl := ⟨[], [⟨"X,Y", "1,1", [⟨"1", "D1"⟩]⟩, ⟨"Z", "1", [⟨"1", "D1"⟩]⟩]⟩

/-- Input for claim C3: two options with distinct dependency sets,
yielding two distinct group keys. -/
def inputDocC3 : RootEl := ⟨[("keep", "me")], [⟨"A", "1", [⟨"1", "D1"⟩]⟩, ⟨"B", "2", []⟩]⟩

/-- Input for claim C4: one option whose name attribute yields a token
but whose value attribute yields none. -/
def inputDocC4 : RootEl := ⟨[], [⟨"A", "", []⟩]⟩

/-- Input for claim C6: dependent id 5 appears first with name Alpha,
later with name Beta. -/
def inputDocC6 : RootEl := ⟨[], [⟨"A", "1", [⟨"5", "Alpha"⟩]⟩, ⟨"B", "2", [⟨"5", "Beta"⟩]⟩]⟩

/-- Input for claim C7: one option with two names and the values out of
numeric order. -/
def inputDocC7 : RootEl := ⟨[], [⟨"X,Y", "2,1", []⟩]⟩

/-- Input for claim C10: a minimal valid document with one atomic entry. -/
def inputDocC10 : RootEl := ⟨[], [⟨"A", "1", []⟩]⟩

/-! Helper lemmas about the grouping dictionary. -/

theorem lookupKey_insertEntry_self (key : GroupKey) (e : Entry) (ord : Nat)
    (gs : List (GroupKey × GroupData)) :
    lookupKey key (insertEntry key e ord gs) =
      some (match lookupKey key gs with
            | some g => { g with names := g.names ++ [e.name], values := g.values ++ [e.value] }
            | none => { names := [e.name], values := [e.value], dependents := e.deps_key, order := ord }) := by
  induction gs with
  | nil => simp [insertEntry, lookupKey]
  | cons kg rest ih =>
    obtain ⟨k, g⟩ := kg
    by_cases h : k = key
    · subst h
      simp [insertEntry, lookupKey]
    · simp [insertEntry, lookupKey, h, ih]

theorem lookupKey_insertEntry_ne {key q : GroupKey} (h : key ≠ q) (e : Entry) (ord : Nat)
    (gs : List (GroupKey × GroupData)) :
    lookupKey q (insertEntry key e ord gs) = lookupKey q gs := by
  induction gs with
  | nil => simp [insertEntry, lookupKey, h]
  | cons kg rest ih =>
    obtain ⟨k, g⟩ := kg
    by_cases hk : k = key
    · subst hk
      simp [insertEntry, lookupKey, h]
    · simp [insertEntry, lookupKey, hk, ih]

theorem buildGroupsAux_names (kf : Entry → GroupKey) (l : List Entry) :
    ∀ (gs : List (GroupKey × GroupData)) (q : GroupKey),
      optNames (lookupKey q (buildGroupsAux kf l gs)) =
        optNames (lookupKey q gs) ++ (l.filter (fun e => kf e = q)).map Entry.name := by
  induction l with
  | nil => intro gs q; simp [buildGroupsAux]
  | cons e rest ih =>
    intro gs q
    simp only [buildGroupsAux]
    rw [ih]
    by_cases h : kf e = q
    · have hlk : optNames (lookupKey q (addEntry gs (kf e) e)) = optNames (lookupKey q gs) ++ [e.name] := by
        unfold addEntry
        rw [h, lookupKey_insertEntry_self]
        cases hg : lookupKey q gs <;> simp [optNames]
      rw [hlk]
      simp [List.filter_cons, h]
    · have hlk : lookupKey q (addEntry gs (kf e) e) = lookupKey q gs := by
        unfold addEntry
        exact lookupKey_insertEntry_ne (by simpa using h) e gs.length gs
      rw [hlk]
      simp [List.filter_cons, h]

theorem buildGroupsAux_values (kf : Entry → GroupKey) (l : List Entry) :
    ∀ (gs : List (GroupKey × GroupData)) (q : GroupKey),
      optValues (lookupKey q (buildGroupsAux kf l gs)) =
        optValues (lookupKey q gs) ++ (l.filter (fun e => kf e = q)).map Entry.value := by
  induction l with
  | nil => intro gs q; simp [buildGroupsAux]
  | cons e rest ih =>
    intro gs q
    simp only [buildGroupsAux]
    rw [ih]
    by_cases h : kf e = q
    · have hlk : optValues (lookupKey q (addEntry gs (kf e) e)) = optValues (lookupKey q gs) ++ [e.value] := by
        unfold addEntry
        rw [h, lookupKey_insertEntry_self]
        cases hg : lookupKey q gs <;> simp [optValues]
      rw [hlk]
      simp [List.filter_cons, h]
    · have hlk : lookupKey q (addEntry gs (kf e) e) = lookupKey q gs := by
        unfold addEntry
        exact lookupKey_insertEntry_ne (by simpa using h) e gs.length gs
      rw [hlk]
      simp [List.filter_cons, h]

theorem mem_insertEntry {kg : GroupKey × GroupData} {key : GroupKey} {e : Entry} {ord : Nat}
    {gs : List (GroupKey × GroupData)} (h : kg ∈ insertEntry key e ord gs) :
    (∃ kg' ∈ gs, kg.1 = kg'.1 ∧ kg.2.dependents = kg'.2.dependents) ∨
      (kg.1 = key ∧ kg.2.dependents = e.deps_key) := by
  induction gs with
  | nil =>
    simp only [insertEntry, List.mem_singleton] at h
    right
    rw [h]
    exact ⟨rfl, rfl⟩
  | cons p rest ih =>
    obtain ⟨k, g⟩ := p
    simp only [insertEntry] at h
    by_cases hk : k = key
    · rw [if_pos hk] at h
      rcases List.mem_cons.mp h with h1 | h1
      · left
        exact ⟨(k, g), List.mem_cons_self _ _, by rw [h1], by rw [h1]⟩
      · left
        exact ⟨kg, List.mem_cons_of_mem _ h1, rfl, rfl⟩
    · rw [if_neg hk] at h
      rcases List.mem_cons.mp h with h1 | h1
      · left
        exact ⟨(k, g), List.mem_cons_self _ _, by rw [h1], by rw [h1]⟩
      · rcases ih h1 with ⟨kg', hmem, h2, h3⟩ | h2
        · left
          exact ⟨kg', List.mem_cons_of_mem _ hmem, h2, h3⟩
        · right
          exact h2

theorem buildGroupsAux_dependents (kf : Entry → GroupKey)
    (hkf : ∀ e : Entry, depsOfKey (kf e) = e.deps_key) (l : List Entry) :
    ∀ gs : List (GroupKey × GroupData),
      (∀ kg ∈ gs, kg.2.dependents = depsOfKey kg.1) →
      ∀ kg ∈ buildGroupsAux kf l gs, kg.2.dependents = depsOfKey kg.1 := by
  induction l with
  | nil =>
    intro gs hgs
    simpa [buildGroupsAux] using hgs
  | cons e rest ih =>
    intro gs hgs kg hmem
    refine ih (addEntry gs (kf e) e) ?_ kg hmem
    intro kg' hmem'
    rcases mem_insertEntry hmem' with ⟨kg'', hmem'', h1, h2⟩ | ⟨h1, h2⟩
    · rw [h2, hgs kg'' hmem'', h1]
    · rw [h2, h1, hkf]

theorem depsOfKey_keyOf (flat : List Entry) (e : Entry) :
    depsOfKey (keyOf flat e) = e.deps_key := by
  unfold keyOf
  split <;> rfl

theorem keysOf_insertEntry (key : GroupKey) (e : Entry) (ord : Nat)
    (gs : List (GroupKey × GroupData)) :
    keysOf (insertEntry key e ord gs) =
      if key ∈ keysOf gs then keysOf gs else keysOf gs ++ [key] := by
  induction gs with
  | nil => simp [insertEntry, keysOf]
  | cons p rest ih =>
    obtain ⟨k, g⟩ := p
    simp only [insertEntry]
    by_cases hk : k = key
    · subst hk
      simp [keysOf]
    · rw [if_neg hk]
      have hcons : keysOf ((k, g) :: insertEntry key e ord rest) = k :: keysOf (insertEntry key e ord rest) := rfl
      rw [hcons, ih]
      by_cases hmem : key ∈ keysOf rest <;>
        · simp only [keysOf] at hmem
          simp [keysOf, hmem, List.mem_cons, Ne.symm hk]

theorem buildGroupsAux_keys (kf : Entry → GroupKey) (l : List Entry) :
    ∀ gs : List (GroupKey × GroupData),
      keysOf (buildGroupsAux kf l gs) = keysOf gs ++ firstEncounters (keysOf gs) (l.map kf) := by
  induction l with
  | nil => intro gs; simp [buildGroupsAux, firstEncounters]
  | cons e rest ih =>
    intro gs
    simp only [buildGroupsAux, List.map_cons, firstEncounters]
    by_cases h : kf e ∈ keysOf gs
    · rw [if_pos h, ih]
      have hkeys : keysOf (addEntry gs (kf e) e) = keysOf gs := by
        unfold addEntry
        rw [keysOf_insertEntry, if_pos h]
      rw [hkeys]
    · rw [if_neg h, ih]
      have hkeys : keysOf (addEntry gs (kf e) e) = keysOf gs ++ [kf e] := by
        unfold addEntry
        rw [keysOf_insertEntry, if_neg h]
      rw [hkeys, List.append_assoc]
      simp

theorem insertEntry_ne_nil (key : GroupKey) (e : Entry) (ord : Nat)
    (gs : List (GroupKey × GroupData)) : insertEntry key e ord gs ≠ [] := by
  cases gs with
  | nil => simp [insertEntry]
  | cons p rest =>
    obtain ⟨k, g⟩ := p
    simp only [insertEntry]
    split <;> simp

theorem buildGroupsAux_ne_nil (kf : Entry → GroupKey) (l : List Entry) :
    ∀ gs : List (GroupKey × GroupData), gs ≠ [] → buildGroupsAux kf l gs ≠ [] := by
  induction l with
  | nil => intro gs h; simpa [buildGroupsAux] using h
  | cons e rest ih =>
    intro gs _
    simp only [buildGroupsAux]
    exact ih _ (insertEntry_ne_nil _ _ _ _)

theorem buildGroups_ne_nil {flat : List Entry} (h : flat ≠ []) : buildGroups flat ≠ [] := by
  cases flat with
  | nil => exact absurd rfl h
  | cons e rest =>
    unfold buildGroups
    simp only [buildGroupsAux]
    exact buildGroupsAux_ne_nil _ _ _ (insertEntry_ne_nil _ _ _ _)

/-! Helper lemmas about the explode step and the full algorithm. -/

theorem valueAt_ok {values : List String} (h : values ≠ []) (idx : Nat) :
    ∃ v, valueAt values idx = .ok v := by
  unfold valueAt
  cases hg : values.get? idx with
  | some v => exact ⟨v, rfl⟩
  | none =>
    cases hl : values.getLast? with
    | some v => exact ⟨v, rfl⟩
    | none => exact absurd (List.getLast?_eq_none_iff.mp hl) h

theorem explodeNames_ok {values : List String} (h : values ≠ []) (deps : List String) :
    ∀ (names : List String) (idx : Nat),
      ∃ l, explodeNames values deps names idx = .ok l ∧ l.length = names.length := by
  intro names
  induction names with
  | nil => intro idx; exact ⟨[], rfl, rfl⟩
  | cons n rest ih =>
    intro idx
    obtain ⟨v, hv⟩ := valueAt_ok h idx
    obtain ⟨l, hl, hlen⟩ := ih (idx + 1)
    refine ⟨{ name := pyStrip n, value := v, deps_key := deps } :: l, ?_, ?_⟩
    · simp only [explodeNames]
      rw [hv, hl]
    · simp [hlen]

theorem explodeRecord_ok {r : Record} (h : r.names ≠ [] → r.values ≠ []) :
    ∃ l, explodeRecord r = .ok l ∧ l.length = r.names.length := by
  cases hn : r.names with
  | nil =>
    refine ⟨[], ?_, rfl⟩
    unfold explodeRecord
    rw [hn]
    rfl
  | cons n rest =>
    have hv : r.values ≠ [] := h (by rw [hn]; simp)
    obtain ⟨l, hl, hlen⟩ := explodeNames_ok hv r.deps_key (n :: rest) 0
    refine ⟨l, ?_, hlen⟩
    unfold explodeRecord
    rw [hn]
    exact hl

theorem explodeAll_ok {recs : List Record} :
    (∀ r ∈ recs, r.names ≠ [] → r.values ≠ []) →
    ∃ flat, explodeAll recs = .ok flat ∧
      flat.length = (recs.map (fun r => r.names.length)).sum := by
  induction recs with
  | nil => intro _; exact ⟨[], rfl, rfl⟩
  | cons r rest ih =>
    intro h
    obtain ⟨l, hl, hlen⟩ := explodeRecord_ok (h r (List.mem_cons_self r rest))
    obtain ⟨flat, hflat, hflen⟩ := ih (fun r' hr' => h r' (List.mem_cons_of_mem _ hr'))
    refine ⟨l ++ flat, ?_, ?_⟩
    · simp only [explodeAll]
      rw [hl, hflat]
    · simp [hlen, hflen]

theorem sum_pos_of_mem {l : List Nat} {n : Nat} (hmem : n ∈ l) (hn : 0 < n) : 0 < l.sum := by
  induction l with
  | nil => cases hmem
  | cons a rest ih =>
    rcases List.mem_cons.mp hmem with h | h
    · subst h
      simp only [List.sum_cons]
      omega
    · have := ih h
      simp only [List.sum_cons]
      omega

theorem generate_eq_of_flat {root : RootEl} {flat : List Entry}
    (h : explodeAll (recordsOf root) = .ok flat) :
    generate_clean_xml_from_root root =
      match sortByFirstAppearance (buildGroups flat) with
      | .error e => .error e
      | .ok ordered => .ok { attrib := root.attrib, options := ordered.map emitOption } := by
  unfold generate_clean_xml_from_root
  rw [h]

/-! Claim theorems. -/

/-- Claim C1, counterexample.  The claim says the group key of an atomic
entry is the effective dependency set of its value (the union over all
entries carrying that value), so two entries with the same value must end
up in one output group.  On `inputDocC1` the two exploded entries carry
the same value string `1` (hence trivially the same effective dependency
set), yet the code assigns them two different group keys, builds two
groups, and then emits nothing at all because the ordering sort raises
`KeyError`. -/
theorem c1_counterexample :
    explodeAll (recordsOf inputDocC1) =
      .ok [⟨"A", "1", ["1:D1"]⟩, ⟨"B", "1", []⟩] ∧
    (⟨"A", "1", ["1:D1"]⟩ : Entry).value = (⟨"B", "1", []⟩ : Entry).value ∧
    keyOf [⟨"A", "1", ["1:D1"]⟩, ⟨"B", "1", []⟩] ⟨"A", "1", ["1:D1"]⟩ ≠
      keyOf [⟨"A", "1", ["1:D1"]⟩, ⟨"B", "1", []⟩] ⟨"B", "1", []⟩ ∧
    (buildGroups [⟨"A", "1", ["1:D1"]⟩, ⟨"B", "1", []⟩]).length = 2 ∧
    generate_clean_xml_from_root inputDocC1 = .error (PyError.keyError "first_appearance") :=
  ⟨by decide, rfl, by decide, by decide, by decide⟩

/-- Claim C1, amended.  The code computes no union of dependency sets:
the group key of an exploded entry is its originating option dependency
signature alone when the value occurs at most once among all exploded
entries, and the pair of the value and that signature when the value
occurs more than once; two entries receive the same key exactly when
their dependency signatures agree, their forced-singleton statuses agree,
and, in the forced case, their values agree. -/
theorem c1_group_key_characterization (flat : List Entry) (e1 e2 : Entry)
    (_h1 : e1 ∈ flat) (_h2 : e2 ∈ flat) :
    keyOf flat e1 = keyOf flat e2 ↔
      e1.deps_key = e2.deps_key ∧
      forcedSingleton flat e1.value = forcedSingleton flat e2.value ∧
      (forcedSingleton flat e1.value = true → e1.value = e2.value) := by
  cases hf1 : forcedSingleton flat e1.value <;>
    cases hf2 : forcedSingleton flat e2.value <;>
      simp [keyOf, hf1, hf2, and_comm]

/-- Claim C1, witness for the amended theorem at a concrete input. -/
theorem c1_witness :
    ((⟨"A", "1", ["1:D1"]⟩ : Entry) ∈ ([⟨"A", "1", ["1:D1"]⟩, ⟨"B", "1", []⟩] : List Entry)) ∧
    ((⟨"B", "1", []⟩ : Entry) ∈ ([⟨"A", "1", ["1:D1"]⟩, ⟨"B", "1", []⟩] : List Entry)) ∧
    (keyOf [⟨"A", "1", ["1:D1"]⟩, ⟨"B", "1", []⟩] ⟨"A", "1", ["1:D1"]⟩ =
        keyOf [⟨"A", "1", ["1:D1"]⟩, ⟨"B", "1", []⟩] ⟨"B", "1", []⟩ ↔
      (⟨"A", "1", ["1:D1"]⟩ : Entry).deps_key = (⟨"B", "1", []⟩ : Entry).deps_key ∧
      forcedSingleton [⟨"A", "1", ["1:D1"]⟩, ⟨"B", "1", []⟩] (⟨"A", "1", ["1:D1"]⟩ : Entry).value =
        forcedSingleton [⟨"A", "1", ["1:D1"]⟩, ⟨"B", "1", []⟩] (⟨"B", "1", []⟩ : Entry).value ∧
      (forcedSingleton [⟨"A", "1", ["1:D1"]⟩, ⟨"B", "1", []⟩] (⟨"A", "1", ["1:D1"]⟩ : Entry).value = true →
        (⟨"A", "1", ["1:D1"]⟩ : Entry).value = (⟨"B", "1", []⟩ : Entry).value)) :=
  ⟨by decide, by decide,
    c1_group_key_characterization _ _ _ (by decide) (by decide)⟩

/-- Claim C2.  On the pinned end-to-end input the claim requires one
emitted option with name `X,Y,Z`, value `1`, one dependent, and a Merged
classification.  The code instead raises `KeyError` at the ordering sort
and produces neither document nor report; moreover the groups dictionary
built just before the crash accumulates the value list `1,1,1`, not the
deduplicated `1` the claim requires. -/
theorem c2_end_to_end_scenario_crashes :
    generate_clean_xml_from_root inputDocC2 = .error (PyError.keyError "first_appearance") ∧
    explodeAll (recordsOf inputDocC2) =
      .ok [⟨"X", "1", ["1:D1"]⟩, ⟨"Y", "1", ["1:D1"]⟩, ⟨"Z", "1", ["1:D1"]⟩] ∧
    buildGroups [⟨"X", "1", ["1:D1"]⟩, ⟨"Y", "1", ["1:D1"]⟩, ⟨"Z", "1", ["1:D1"]⟩] =
      [(GroupKey.force "1" ["1:D1"], ⟨["X", "Y", "Z"], ["1", "1", "1"], ["1:D1"], 0⟩)] :=
  ⟨by decide, by decide, by decide⟩

/-- Claim C3, counterexample.  The claim asserts the output options are
emitted in first-encounter order of their group keys.  On `inputDocC3`
two group keys are encountered, but no output element is ever emitted:
the ordering sort raises `KeyError`, so there is no output document at
all. -/
theorem c3_counterexample :
    (¬ ∃ out : OutRoot, generate_clean_xml_from_root inputDocC3 = .ok out) ∧
    generate_clean_xml_from_root inputDocC3 = .error (PyError.keyError "first_appearance") := by
  have h : generate_clean_xml_from_root inputDocC3 = .error (PyError.keyError "first_appearance") := by
    decide
  refine ⟨?_, h⟩
  rintro ⟨out, hout⟩
  rw [h] at hout
  exact Except.noConfusion hout

/-- Claim C3, amended.  The groups dictionary itself does list the groups
in the order in which each distinct key is first encountered during the
left-to-right scan of the exploded entries, and is never resorted by
content; the subsequent emission step, however, raises `KeyError` for
every nonempty dictionary, so the order never reaches an output
document. -/
theorem c3_first_encounter_order (flat : List Entry) :
    (buildGroups flat).map Prod.fst = firstEncounters [] (flat.map (keyOf flat)) := by
  have h := buildGroupsAux_keys (keyOf flat) flat []
  simpa [keysOf, buildGroups] using h

/-- Claim C3, witness for the amended theorem at a concrete entry list
(the value 1 occurs twice, so its entries are forced singletons and the
keys interleave). -/
theorem c3_witness :
    (buildGroups [⟨"A", "1", []⟩, ⟨"B", "2", []⟩, ⟨"C", "1", []⟩]).map Prod.fst =
      firstEncounters []
        (([⟨"A", "1", []⟩, ⟨"B", "2", []⟩, ⟨"C", "1", []⟩] : List Entry).map
          (keyOf [⟨"A", "1", []⟩, ⟨"B", "2", []⟩, ⟨"C", "1", []⟩])) :=
  c3_first_encounter_order [⟨"A", "1", []⟩, ⟨"B", "2", []⟩, ⟨"C", "1", []⟩]

/-- Claim C4, counterexample.  The claim predicts `KeyError` for every
root with at least one option whose name attribute yields a token; but
when such an option has no value tokens the explode step raises
`IndexError` first (negative indexing of an empty list), so the claimed
`KeyError` is not reached. -/
theorem c4_counterexample :
    generate_clean_xml_from_root inputDocC4 = .error PyError.indexError ∧
    generate_clean_xml_from_root inputDocC4 ≠ .error (PyError.keyError "first_appearance") :=
  ⟨by decide, by decide⟩

/-- Claim C4, amended.  For every parsed root with at least one option
whose name attribute yields a non-empty token, where additionally every
option with name tokens also has at least one value token (otherwise
`IndexError` precedes), `generate_clean_xml_from_root` raises `KeyError`
on the key `first_appearance` and produces no output: the buckets are
created with the key `order` but the final ordering sort accesses
`first_appearance`. -/
theorem c4_keyerror_on_nonempty (root : RootEl)
    (h1 : ∀ o ∈ root.options, splitField o.name ≠ [] → splitField o.value ≠ [])
    (h2 : ∃ o ∈ root.options, splitField o.name ≠ []) :
    generate_clean_xml_from_root root = .error (PyError.keyError "first_appearance") := by
  have hrec : ∀ r ∈ recordsOf root, r.names ≠ [] → r.values ≠ [] := by
    intro r hr
    rw [recordsOf] at hr
    obtain ⟨o, ho, rfl⟩ := List.mem_map.mp hr
    simpa [recordOf] using h1 o ho
  obtain ⟨flat, hflat, hlen⟩ := explodeAll_ok hrec
  obtain ⟨o, ho, hname⟩ := h2
  have hmeml : (recordOf o).names.length ∈ (recordsOf root).map (fun r => r.names.length) := by
    refine List.mem_map.mpr ⟨recordOf o, ?_, rfl⟩
    rw [recordsOf]
    exact List.mem_map.mpr ⟨o, ho, rfl⟩
  have hpos : 0 < flat.length := by
    rw [hlen]
    refine sum_pos_of_mem hmeml ?_
    simpa [recordOf] using List.length_pos.mpr hname
  have hne : flat ≠ [] := by
    intro hnil
    rw [hnil] at hpos
    simp at hpos
  have hbg := buildGroups_ne_nil hne
  rw [generate_eq_of_flat hflat]
  cases hbgs : buildGroups flat with
  | nil => exact absurd hbgs hbg
  | cons g gs => rfl

/-- Claim C4, witness for the amended theorem at a concrete input. -/
theorem c4_witness :
    (∀ o ∈ (⟨[], [⟨"A", "1", []⟩]⟩ : RootEl).options, splitField o.name ≠ [] → splitField o.value ≠ []) ∧
    (∃ o ∈ (⟨[], [⟨"A", "1", []⟩]⟩ : RootEl).options, splitField o.name ≠ []) ∧
    generate_clean_xml_from_root ⟨[], [⟨"A", "1", []⟩]⟩ = .error (PyError.keyError "first_appearance") :=
  ⟨by decide, by decide, c4_keyerror_on_nonempty ⟨[], [⟨"A", "1", []⟩]⟩ (by decide) (by decide)⟩

/-- Claim C5.  The claim says a shape mismatch between names and values
never raises, with the empty value list falling back to empty strings.
The code does reuse the last value when the value list is nonempty and
shorter than the names, but on an empty value list with a nonempty name
list the `values[-1]` lookup raises `IndexError` instead of producing
empty strings. -/
theorem c5_empty_values_index_error :
    explodeRecord ⟨["A", "B"], [], []⟩ = .error PyError.indexError ∧
    explodeRecord ⟨["a", "b", "c"], ["1", "2"], []⟩ =
      .ok [⟨"a", "1", []⟩, ⟨"b", "2", []⟩, ⟨"c", "2", []⟩] :=
  ⟨by decide, by decide⟩

/-- Claim C6, counterexample.  The claim requires every emitted dependent
with id 5 to carry the first-seen name Alpha.  On `inputDocC6` the two
options land in two different groups whose recorded dependents keep their
own option names verbatim, `5:Alpha` and `5:Beta`; and no dependent is
ever emitted because the ordering sort raises `KeyError`. -/
theorem c6_counterexample :
    explodeAll (recordsOf inputDocC6) =
      .ok [⟨"A", "1", ["5:Alpha"]⟩, ⟨"B", "2", ["5:Beta"]⟩] ∧
    (buildGroups [⟨"A", "1", ["5:Alpha"]⟩, ⟨"B", "2", ["5:Beta"]⟩]).map (fun kg => kg.2.dependents) =
      [["5:Alpha"], ["5:Beta"]] ∧
    (¬ ∃ out : OutRoot, generate_clean_xml_from_root inputDocC6 = .ok out) := by
  have h : generate_clean_xml_from_root inputDocC6 = .error (PyError.keyError "first_appearance") := by
    decide
  refine ⟨by decide, by decide, ?_⟩
  rintro ⟨out, hout⟩
  rw [h] at hout
  exact Except.noConfusion hout

/-- Claim C6, amended.  No first-write-wins resolution of dependent names
exists in the code: each group keeps the `id:name` signatures of its
originating option verbatim, so the same id may carry different names in
different groups, and the emission step (were it reached) would emit the
per-option name, here Beta for the second group. -/
theorem c6_no_first_write_wins :
    buildGroups [⟨"A", "1", ["5:Alpha"]⟩, ⟨"B", "2", ["5:Beta"]⟩] =
      [(GroupKey.normal ["5:Alpha"], ⟨["A"], ["1"], ["5:Alpha"], 0⟩),
       (GroupKey.normal ["5:Beta"], ⟨["B"], ["2"], ["5:Beta"], 1⟩)] ∧
    (emitOption (GroupKey.normal ["5:Beta"], ⟨["B"], ["2"], ["5:Beta"], 1⟩)).dependents =
      [⟨"0", "5", "Beta", "false", "false"⟩] :=
  ⟨by decide, by decide⟩

/-- Claim C7, counterexample.  The claim requires the emitted value
attribute to be the distinct member values sorted (numerically here, so
`1,2`).  On `inputDocC7` the single group accumulates the raw value list
`2,1` in encounter order, unsorted, and no option is emitted at all
because the ordering sort raises `KeyError`. -/
theorem c7_counterexample :
    explodeAll (recordsOf inputDocC7) = .ok [⟨"X", "2", []⟩, ⟨"Y", "1", []⟩] ∧
    buildGroups [⟨"X", "2", []⟩, ⟨"Y", "1", []⟩] =
      [(GroupKey.normal [], ⟨["X", "Y"], ["2", "1"], [], 0⟩)] ∧
    (¬ ∃ out : OutRoot, generate_clean_xml_from_root inputDocC7 = .ok out) := by
  have h : generate_clean_xml_from_root inputDocC7 = .error (PyError.keyError "first_appearance") := by
    decide
  refine ⟨by decide, by decide, ?_⟩
  rintro ⟨out, hout⟩
  rw [h] at hout
  exact Except.noConfusion hout

/-- Claim C7, amended.  A bucket accumulates exactly the names and the
values of the entries mapped to its key, in encounter order, duplicates
kept and never sorted; only the name attribute is deduplicated (first
occurrence first) at emission, which is never reached for a nonempty
dictionary. -/
theorem c7_group_member_accumulation (flat : List Entry) (k : GroupKey) (g : GroupData)
    (h : lookupKey k (buildGroups flat) = some g) :
    g.names = (flat.filter (fun e => keyOf flat e = k)).map Entry.name ∧
    g.values = (flat.filter (fun e => keyOf flat e = k)).map Entry.value := by
  have hn := buildGroupsAux_names (keyOf flat) flat [] k
  have hv := buildGroupsAux_values (keyOf flat) flat [] k
  rw [show buildGroupsAux (keyOf flat) flat [] = buildGroups flat from rfl, h] at hn hv
  simpa [optNames, optValues, lookupKey] using And.intro hn hv

/-- Claim C7, witness for the amended theorem at a concrete input. -/
theorem c7_witness :
    lookupKey (GroupKey.normal []) (buildGroups [⟨"X", "2", []⟩, ⟨"Y", "1", []⟩]) =
      some ⟨["X", "Y"], ["2", "1"], [], 0⟩ ∧
    ((⟨["X", "Y"], ["2", "1"], [], 0⟩ : GroupData).names =
      (([⟨"X", "2", []⟩, ⟨"Y", "1", []⟩] : List Entry).filter
        (fun e => keyOf [⟨"X", "2", []⟩, ⟨"Y", "1", []⟩] e = GroupKey.normal [])).map Entry.name ∧
    (⟨["X", "Y"], ["2", "1"], [], 0⟩ : GroupData).values =
      (([⟨"X", "2", []⟩, ⟨"Y", "1", []⟩] : List Entry).filter
        (fun e => keyOf [⟨"X", "2", []⟩, ⟨"Y", "1", []⟩] e = GroupKey.normal [])).map Entry.value) :=
  ⟨by decide, c7_group_member_accumulation _ _ _ (by decide)⟩

/-- Claim C8.  Dependency-set invariant, confirmed at the grouping stage:
every entry mapped to a group key carries exactly the dependents
signature stored in that bucket, so all member name and value pairs of
one group share one dependency signature.  (Both key forms embed the
signature, so equal keys force equal signatures.) -/
theorem c8_dependency_set_invariant (root : RootEl) (flat : List Entry)
    (_hflat : explodeAll (recordsOf root) = .ok flat) :
    ∀ kg ∈ buildGroups flat, ∀ e ∈ flat, keyOf flat e = kg.1 → e.deps_key = kg.2.dependents := by
  intro kg hkg e _ hkey
  have hdep : kg.2.dependents = depsOfKey kg.1 :=
    buildGroupsAux_dependents (keyOf flat) (depsOfKey_keyOf flat) flat [] (by simp) kg hkg
  rw [hdep, ← hkey, depsOfKey_keyOf]

/-- Claim C8, witness for the theorem at a concrete input. -/
theorem c8_witness :
    explodeAll (recordsOf ⟨[], [⟨"P,Q", "3,4", [⟨"2", "E"⟩]⟩]⟩) =
      .ok [⟨"P", "3", ["2:E"]⟩, ⟨"Q", "4", ["2:E"]⟩] ∧
    ((GroupKey.normal ["2:E"], (⟨["P", "Q"], ["3", "4"], ["2:E"], 0⟩ : GroupData)) ∈
      buildGroups [⟨"P", "3", ["2:E"]⟩, ⟨"Q", "4", ["2:E"]⟩]) ∧
    ((⟨"Q", "4", ["2:E"]⟩ : Entry) ∈ ([⟨"P", "3", ["2:E"]⟩, ⟨"Q", "4", ["2:E"]⟩] : List Entry)) ∧
    keyOf [⟨"P", "3", ["2:E"]⟩, ⟨"Q", "4", ["2:E"]⟩] ⟨"Q", "4", ["2:E"]⟩ =
      (GroupKey.normal ["2:E"], (⟨["P", "Q"], ["3", "4"], ["2:E"], 0⟩ : GroupData)).1 ∧
    (⟨"Q", "4", ["2:E"]⟩ : Entry).deps_key =
      (GroupKey.normal ["2:E"], (⟨["P", "Q"], ["3", "4"], ["2:E"], 0⟩ : GroupData)).2.dependents :=
  ⟨by decide, by decide, by decide, by decide,
    c8_dependency_set_invariant ⟨[], [⟨"P,Q", "3,4", [⟨"2", "E"⟩]⟩]⟩
      [⟨"P", "3", ["2:E"]⟩, ⟨"Q", "4", ["2:E"]⟩] (by decide)
      (GroupKey.normal ["2:E"], ⟨["P", "Q"], ["3", "4"], ["2:E"], 0⟩) (by decide)
      ⟨"Q", "4", ["2:E"]⟩ (by decide) (by decide)⟩

/-- Claim C9.  When parsing fails, the single try block reports the
parser message to the caller and leaves the cleaned document unset: no
partial output is produced. -/
theorem c9_malformed_document_no_output (msg : String) :
    runPipeline (.error msg) =
      { errorMsg := some ("XML parse / cleaning error: " ++ msg), cleaned := none } := rfl

/-- Claim C9, witness at a concrete parser message. -/
theorem c9_witness :
    runPipeline (.error "unclosed token: line 3, column 2") =
      { errorMsg := some ("XML parse / cleaning error: " ++ "unclosed token: line 3, column 2"),
        cleaned := none } :=
  c9_malformed_document_no_output "unclosed token: line 3, column 2"

/-- Claim C10, counterexample.  The claim asserts idempotence of the core
on every valid input; on the minimal valid document `inputDocC10` the
first run already produces no output (the ordering sort raises
`KeyError`), so there is nothing to re-run the pipeline on. -/
theorem c10_counterexample :
    (¬ ∃ out : OutRoot, generate_clean_xml_from_root inputDocC10 = .ok out) ∧
    generate_clean_xml_from_root inputDocC10 = .error (PyError.keyError "first_appearance") := by
  have h : generate_clean_xml_from_root inputDocC10 = .error (PyError.keyError "first_appearance") := by
    decide
  refine ⟨?_, h⟩
  rintro ⟨out, hout⟩
  rw [h] at hout
  exact Except.noConfusion hout

/-- Claim C10, amended.  The only inputs on which the algorithm succeeds
are those yielding no atomic entry at all; the output then carries the
root attributes and no options, and re-running the algorithm on the
re-parsed output reproduces it exactly. -/
theorem c10_roundtrip_trivial (root : RootEl) (out : OutRoot)
    (h : generate_clean_xml_from_root root = .ok out) :
    out.options = [] ∧ generate_clean_xml_from_root (reparseOutput out) = .ok out := by
  cases hex : explodeAll (recordsOf root) with
  | error e =>
    unfold generate_clean_xml_from_root at h
    rw [hex] at h
    exact Except.noConfusion h
  | ok flat =>
    rw [generate_eq_of_flat hex] at h
    cases hbg : buildGroups flat with
    | cons g gs =>
      rw [hbg] at h
      exact Except.noConfusion h
    | nil =>
      rw [hbg] at h
      simp only [sortByFirstAppearance, List.map_nil] at h
      obtain rfl : ({ attrib := root.attrib, options := [] } : OutRoot) = out := by
        simpa using h
      exact ⟨rfl, rfl⟩

/-- Claim C10, witness for the amended theorem at a concrete input. -/
theorem c10_witness :
    generate_clean_xml_from_root ⟨[("a", "b")], []⟩ = .ok ⟨[("a", "b")], []⟩ ∧
    ((⟨[("a", "b")], []⟩ : OutRoot).options = [] ∧
      generate_clean_xml_from_root (reparseOutput ⟨[("a", "b")], []⟩) = .ok ⟨[("a", "b")], []⟩) :=
  ⟨by decide, c10_roundtrip_trivial ⟨[("a", "b")], []⟩ ⟨[("a", "b")], []⟩ (by decide)⟩

end XmlAgent
